import Mathlib

/-!
Verification of the X-spline evaluator core (`xspline/core.py`).

The recursive evaluators `bspline_domain`, `bspline_fun`, `bspline_dfun`,
`bspline_ifun` and the facade class `XSpline` are embedded below over the
rationals.  Machine floats of the source are modelled by `ℚ`; the arrays of
evaluation points are modelled pointwise (one evaluation point per call),
which is faithful because the source applies every operation elementwise.

The elementary primitives of the module `xspline.utils` (`indicator_f`,
`linear_lf`, `linear_rf`, `indicator_if`) are collaborators that are not part
of the core sources; they are modelled from the specification's contract for
them, as documented on each definition.
-/

/-- An extended rational: a support bound that may be `-∞` or `+∞`,
mirroring the `-np.inf` / `np.inf` entries that `bspline_domain` places in
its result under extrapolation. -/
inductive XRat where
  | ninf : XRat
  | fin : ℚ → XRat
  | pinf : XRat
deriving DecidableEq

/-- `b.leB x` decides `b ≤ x` for a lower bound `b`. -/
def XRat.leB : XRat → ℚ → Bool
  | .ninf, _ => true
  | .fin q, x => decide (q ≤ x)
  | .pinf, _ => false

/-- `b.ltB x` decides `b < x` for a lower bound `b`. -/
def XRat.ltB : XRat → ℚ → Bool
  | .ninf, _ => true
  | .fin q, x => decide (q < x)
  | .pinf, _ => false

/-- `b.geB x` decides `x ≤ b` for an upper bound `b`. -/
def XRat.geB : XRat → ℚ → Bool
  | .ninf, _ => false
  | .fin q, x => decide (x ≤ q)
  | .pinf, _ => true

/-- `b.gtB x` decides `x < b` for an upper bound `b`. -/
def XRat.gtB : XRat → ℚ → Bool
  | .ninf, _ => false
  | .fin q, x => decide (x < q)
  | .pinf, _ => true

/-- Modelled from the spec: the collaborator `utils.indicator_f` (missing
from the sources; the spec's §6 contract specifies "an indicator function
over an interval with independently controllable closed/open endpoints").
It is `1` when `x` lies in the interval `b` and `0` otherwise; following the
call sites of `core.py` and §4.2 the left endpoint is closed by default and
the right endpoint is open by default. -/
def indicator_f (x : ℚ) (b : XRat × XRat) (l_close : Bool := true)
    (r_close : Bool := false) : ℚ :=
  if ((if l_close then b.1.leB x else b.1.ltB x)
      && (if r_close then b.2.geB x else b.2.gtB x)) then 1 else 0

/-- Modelled from the spec: the collaborator `utils.linear_lf` (missing from
the sources; §6 specifies "left/right linear ramp functions normalized to the
unit interval over a given domain", §4.2 "linear functions equal to 1 at one
endpoint of the given sub-domain and 0 at the other").  `linear_lf` is the
ramp vanishing at the left endpoint `b.1` and equal to `1` at `b.2`; the
orientation is pinned by the parallel derivative recursion of
`bspline_dfun` in `core.py`, whose term for index `idx - 1` uses the slope
`(x - b[0]) / (b[1] - b[0])`. -/
def linear_lf (x : ℚ) (b : ℚ × ℚ) : ℚ := (x - b.1) / (b.2 - b.1)

/-- Modelled from the spec: the collaborator `utils.linear_rf`, the ramp
equal to `1` at the left endpoint `b.1` and vanishing at `b.2` (see
`linear_lf`; in `bspline_dfun` the mirrored term uses
`(x - b[1]) / (b[0] - b[1])`). -/
def linear_rf (x : ℚ) (b : ℚ × ℚ) : ℚ := (x - b.2) / (b.1 - b.2)

/-- Modelled from the spec: the collaborator `utils.indicator_if` (missing
from the sources; §6 specifies "a closed-form repeated-integral-of-indicator
primitive" and §4.4 a "closed-form analytic integral of an indicator
function of order `k` over `[a, x]`").  Written here through the Cauchy
formula for the repeated integral: the `k`-th repeated integral from `a` of
the indicator of `[lb, ub]`, evaluated at `x`, is
`((x - u)^k - (x - v)^k) / k!` with `u = max a lb` and `v = min x ub`.
No claim below depends on this primitive: it is reached only by
`bspline_ifun` with a positive order at degree `0`. -/
def indicator_if (a x : ℚ) (order : ℕ) (b : XRat × XRat) : ℚ :=
  match b.1, b.2 with
  | .pinf, _ => 0
  | _, .ninf => 0
  | lb, ub =>
    let u : ℚ := match lb with | .fin q => max a q | _ => a
    let v : ℚ := match ub with | .fin q => min x q | _ => x
    if u ≤ v then ((x - u) ^ order - (x - v) ^ order) / (Nat.factorial order)
    else 0

/-- `num_splines = num_intervals + degree` of `core.py` (with
`num_intervals = knots.size - 1`), as an integer. -/
def numSplines (knots : List ℚ) (degree : ℕ) : ℤ :=
  ((knots.length : ℤ) - 1) + degree

/-- The index resolution `if idx == -1: idx = num_splines - 1` performed at
the top of every evaluator in `core.py`. -/
def resolveIdx (knots : List ℚ) (degree : ℕ) (idx : ℤ) : ℤ :=
  if idx = -1 then numSplines knots degree - 1 else idx

/-- The two finite support endpoints
`lb = knots[max(idx - degree, 0)]`, `ub = knots[min(idx + 1, num_intervals)]`
computed by `bspline_domain` before the extrapolation overrides. -/
def bspline_domainQ (knots : List ℚ) (degree : ℕ) (idx0 : ℤ) : ℚ × ℚ :=
  let idx := resolveIdx knots degree idx0
  (knots.getD (max (idx - degree) 0).toNat 0,
   knots.getD (min (idx + 1) ((knots.length : ℤ) - 1)).toNat 0)

/-- `bspline_domain` of `core.py`: the support of the spline basis, with the
left endpoint replaced by `-∞` when `idx == 0 ∧ l_extra` and the right
endpoint replaced by `+∞` when `idx == num_splines - 1 ∧ r_extra`. -/
def bspline_domain (knots : List ℚ) (degree : ℕ) (idx0 : ℤ)
    (l_extra r_extra : Bool) : XRat × XRat :=
  let idx := resolveIdx knots degree idx0
  let b := bspline_domainQ knots degree idx
  (if idx = 0 ∧ l_extra then XRat.ninf else XRat.fin b.1,
   if idx = numSplines knots degree - 1 ∧ r_extra then XRat.pinf
   else XRat.fin b.2)

/-- `bspline_fun` of `core.py`: the spline basis value at one point `x`. -/
def bspline_fun (x : ℚ) (knots : List ℚ) : (degree : ℕ) → (idx0 : ℤ) →
    (l_extra : Bool) → (r_extra : Bool) → ℚ
  | 0, idx0, lE, rE =>
    let idx := resolveIdx knots 0 idx0
    indicator_f x (bspline_domain knots 0 idx lE rE) true
      (decide (idx = numSplines knots 0 - 1))
  | d + 1, idx0, lE, rE =>
    let idx := resolveIdx knots (d + 1) idx0
    if idx = 0 then
      indicator_f x (bspline_domain knots (d + 1) idx lE rE)
        * linear_rf x (bspline_domainQ knots (d + 1) idx) ^ (d + 1)
    else if idx = numSplines knots (d + 1) - 1 then
      indicator_f x (bspline_domain knots (d + 1) idx lE rE) true true
        * linear_lf x (bspline_domainQ knots (d + 1) idx) ^ (d + 1)
    else
      bspline_fun x knots d (idx - 1) lE rE
          * linear_lf x (bspline_domainQ knots d (idx - 1))
        + bspline_fun x knots d idx lE rE
          * linear_rf x (bspline_domainQ knots d idx)
termination_by structural degree => degree

/-- `bspline_dfun` of `core.py`: the `order`-th derivative of the spline
basis at one point `x`. -/
def bspline_dfun (x : ℚ) (knots : List ℚ) : (degree : ℕ) → (order : ℕ) →
    (idx0 : ℤ) → (l_extra : Bool) → (r_extra : Bool) → ℚ
  | d, 0, idx0, lE, rE => bspline_fun x knots d (resolveIdx knots d idx0) lE rE
  | 0, _ + 1, _, _, _ => 0
  | d + 1, o + 1, idx0, lE, rE =>
    if o + 1 > d + 1 then 0
    else
      let idx := resolveIdx knots (d + 1) idx0
      let rdf : ℚ :=
        if idx = 0 then 0
        else
          let b := bspline_domainQ knots d (idx - 1)
          let dd := b.2 - b.1
          (x - b.1) / dd * bspline_dfun x knots d (o + 1) (idx - 1) lE rE
            + ((o : ℚ) + 1) * bspline_dfun x knots d o (idx - 1) lE rE / dd
      let ldf : ℚ :=
        if idx = numSplines knots (d + 1) - 1 then 0
        else
          let b := bspline_domainQ knots d idx
          let dd := b.1 - b.2
          (x - b.2) / dd * bspline_dfun x knots d (o + 1) idx lE rE
            + ((o : ℚ) + 1) * bspline_dfun x knots d o idx lE rE / dd
      ldf + rdf
termination_by structural degree => degree

/-- `bspline_ifun` of `core.py`: the `order`-th repeated definite integral
(from `a` to `x`) of the spline basis, at one point `x`. -/
def bspline_ifun (a x : ℚ) (knots : List ℚ) : (degree : ℕ) → (order : ℕ) →
    (idx0 : ℤ) → (l_extra : Bool) → (r_extra : Bool) → ℚ
  | d, 0, idx0, lE, rE => bspline_fun x knots d (resolveIdx knots d idx0) lE rE
  | 0, o + 1, idx0, lE, rE =>
    indicator_if a x (o + 1)
      (bspline_domain knots 0 (resolveIdx knots 0 idx0) lE rE)
  | d + 1, o + 1, idx0, lE, rE =>
    let idx := resolveIdx knots (d + 1) idx0
    let rif : ℚ :=
      if idx = 0 then 0
      else
        let b := bspline_domainQ knots d (idx - 1)
        let dd := b.2 - b.1
        (x - b.1) / dd * bspline_ifun a x knots d (o + 1) (idx - 1) lE rE
          - ((o : ℚ) + 1) * bspline_ifun a x knots d (o + 2) (idx - 1) lE rE / dd
    let lif : ℚ :=
      if idx = numSplines knots (d + 1) - 1 then 0
      else
        let b := bspline_domainQ knots d idx
        let dd := b.1 - b.2
        (x - b.2) / dd * bspline_ifun a x knots d (o + 1) idx lE rE
          - ((o : ℚ) + 1) * bspline_ifun a x knots d (o + 2) idx lE rE / dd
    lif + rif
termination_by structural degree => degree

/-- `int(flag)` for a Python bool flag, as used by `XSpline.__init__`. -/
def bi (b : Bool) : ℕ := if b then 1 else 0

/-- The `XSpline` class of `core.py`: the stored (already deduplicated and
sorted) knots, the degree and the two linear-tail flags.  The quantities the
constructor derives from these fields are given as definitions below. -/
structure XSpline where
  knots : List ℚ
  degree : ℕ
  l_linear : Bool
  r_linear : Bool

/-- `self.num_knots`. -/
def XSpline.num_knots (s : XSpline) : ℕ := s.knots.length

/-- `self.num_intervals`. -/
def XSpline.num_intervals (s : XSpline) : ℤ := (s.knots.length : ℤ) - 1

/-- `self.num_spline_bases`. -/
def XSpline.num_spline_bases (s : XSpline) : ℤ := s.num_intervals + s.degree

/-- `self.inner_knots = self.knots[int_l_linear : self.num_knots - int_r_linear]`. -/
def XSpline.inner_knots (s : XSpline) : List ℚ :=
  (s.knots.drop (bi s.l_linear)).take (s.num_knots - bi s.r_linear - bi s.l_linear)

/-- `self.lb = self.knots[0]`. -/
def XSpline.lb (s : XSpline) : ℚ := s.knots.getD 0 0

/-- `self.ub = self.knots[-1]`. -/
def XSpline.ub (s : XSpline) : ℚ := s.knots.getD (s.knots.length - 1) 0

/-- `self.inner_lb = self.inner_knots[0]`. -/
def XSpline.inner_lb (s : XSpline) : ℚ := s.inner_knots.getD 0 0

/-- `self.inner_ub = self.inner_knots[-1]`. -/
def XSpline.inner_ub (s : XSpline) : ℚ :=
  s.inner_knots.getD (s.inner_knots.length - 1) 0

/-- `XSpline.__init__` of `core.py` as a fallible constructor: the input
knots are deduplicated (`list(set(knots))`) and sorted (`np.sort`); the two
`assert` statements become the failure (`none`) branch, so no object is
produced when `num_intervals < 1 + int(l_linear) + int(r_linear)` or the
(integer) degree is negative.  The non-integer-degree failure of
`isinstance(self.degree, int)` is enforced by the type of `degree`. -/
def XSpline.mk? (knots0 : List ℚ) (degree : ℤ) (l_linear r_linear : Bool) :
    Option XSpline :=
  let knots := knots0.toFinset.sort (· ≤ ·)
  if ((knots.length : ℤ) - 1 ≥ 1 + bi l_linear + bi r_linear) ∧ 0 ≤ degree then
    some ⟨knots, degree.toNat, l_linear, r_linear⟩
  else none

/-- `XSpline.domain` of `core.py`: resolve the support against the inner
knots, then replace an endpoint by the outer boundary when it coincides with
the inner boundary. -/
def XSpline.domain (s : XSpline) (idx : ℤ) (l_extra r_extra : Bool) :
    XRat × XRat :=
  let inner_domain := bspline_domain s.inner_knots s.degree idx l_extra r_extra
  (if inner_domain.1 = XRat.fin s.inner_lb then XRat.fin s.lb
   else inner_domain.1,
   if inner_domain.2 = XRat.fin s.inner_ub then XRat.fin s.ub
   else inner_domain.2)

/-- `XSpline.fun` of `core.py`, at one evaluation point `x` (`fun` is a
reserved word in Lean, hence the name).  The three numpy masks `l_idx`,
`u_idx`, `m_idx` of the source partition the evaluation points; pointwise
they become the conditions below, with the later mask assignments
(`f[u_idx] = ...`, then `f[m_idx] = ...`) overriding the earlier ones, and
the result array starting out as `np.zeros(x.size)`. -/
def XSpline.funAt (s : XSpline) (x : ℚ) (idx : ℤ) (l_extra r_extra : Bool) : ℚ :=
  if ¬s.l_linear ∧ ¬s.r_linear then
    bspline_fun x s.inner_knots s.degree idx l_extra r_extra
  else
    let f0 : ℚ := 0
    let f1 : ℚ :=
      if s.l_linear ∧ x < s.inner_lb ∧ (s.lb ≤ x ∨ l_extra) then
        bspline_fun s.inner_lb s.inner_knots s.degree idx false false
          + bspline_dfun s.inner_lb s.inner_knots s.degree 1 idx false false
            * (x - s.inner_lb)
      else f0
    let f2 : ℚ :=
      if s.r_linear ∧ s.inner_ub < x ∧ (x ≤ s.ub ∨ r_extra) then
        bspline_fun s.inner_ub s.inner_knots s.degree idx false false
          + bspline_dfun s.inner_ub s.inner_knots s.degree 1 idx false false
            * (x - s.inner_ub)
      else f1
    if (s.l_linear → s.inner_lb ≤ x) ∧ (s.r_linear → x ≤ s.inner_ub) then
      bspline_fun x s.inner_knots s.degree idx l_extra r_extra
    else f2

/-! ### Basic lemmas about index resolution and list access -/

theorem resolveIdx_idem (knots : List ℚ) (d : ℕ) (i : ℤ) :
    resolveIdx knots d (resolveIdx knots d i) = resolveIdx knots d i := by
  unfold resolveIdx
  split_ifs with h1 h2 <;> simp_all

theorem bspline_domainQ_resolve (knots : List ℚ) (d : ℕ) (i : ℤ) :
    bspline_domainQ knots d (resolveIdx knots d i) = bspline_domainQ knots d i := by
  unfold bspline_domainQ
  rw [resolveIdx_idem]

theorem bspline_domain_resolve (knots : List ℚ) (d : ℕ) (i : ℤ) (lE rE : Bool) :
    bspline_domain knots d (resolveIdx knots d i) lE rE =
      bspline_domain knots d i lE rE := by
  unfold bspline_domain
  rw [resolveIdx_idem]

theorem bspline_fun_resolve (x : ℚ) (knots : List ℚ) (d : ℕ) (i : ℤ)
    (lE rE : Bool) :
    bspline_fun x knots d (resolveIdx knots d i) lE rE =
      bspline_fun x knots d i lE rE := by
  cases d with
  | zero => simp only [bspline_fun, resolveIdx_idem]
  | succ d => simp only [bspline_fun, resolveIdx_idem]

theorem getD_eq_get (l : List ℚ) (n : ℕ) (h : n < l.length) :
    l.getD n 0 = l.get ⟨n, h⟩ := by
  rw [List.getD_eq_getElem _ _ h, List.get_eq_getElem]

theorem getD_lt_getD (l : List ℚ) (h : l.Sorted (· < ·)) {i j : ℕ}
    (hij : i < j) (hj : j < l.length) : l.getD i 0 < l.getD j 0 := by
  rw [getD_eq_get l i (lt_trans hij hj), getD_eq_get l j hj]
  exact h.rel_get_of_lt hij

theorem getD_le_getD (l : List ℚ) (h : l.Sorted (· < ·)) {i j : ℕ}
    (hij : i ≤ j) (hj : j < l.length) : l.getD i 0 ≤ l.getD j 0 := by
  rcases lt_or_eq_of_le hij with h' | h'
  · exact le_of_lt (getD_lt_getD l h h' hj)
  · rw [h']

/-! ### Claim theorems: concrete scenarios and order identities -/

/-- **C1** (corrected, counterexample): for knots `[0, 1, 2, 3]` and degree
1, the basis with index 1 evaluates to `0` at `x = 5/2`, not to the claimed
`1/4`: the support of this basis is `[0, 2]` and `5/2` lies outside it. -/
theorem C1_counterexample :
    bspline_fun (5/2) [0, 1, 2, 3] 1 1 false false = 0 ∧
    bspline_fun (5/2) [0, 1, 2, 3] 1 1 false false ≠ 1/4 := by
  constructor <;>
    norm_num [bspline_fun, bspline_domain, bspline_domainQ, resolveIdx,
      numSplines, indicator_f, linear_lf, linear_rf, XRat.leB, XRat.ltB,
      XRat.geB, XRat.gtB, List.getD, Int.toNat]

/-- **C1** (amended): for knots `[0, 1, 2, 3]` and degree 1, the basis with
index 1 (both extrapolation flags false) satisfies `basis(1.0, 1) = 1`,
`basis(0.5, 1) = 0.5`, `basis(2.5, 1) = 0` and `basis(-0.5, 1) = 0`. -/
theorem C1_amended :
    bspline_fun 1 [0, 1, 2, 3] 1 1 false false = 1 ∧
    bspline_fun (1/2) [0, 1, 2, 3] 1 1 false false = 1/2 ∧
    bspline_fun (5/2) [0, 1, 2, 3] 1 1 false false = 0 ∧
    bspline_fun (-1/2) [0, 1, 2, 3] 1 1 false false = 0 := by
  refine ⟨?_, ?_, ?_, ?_⟩ <;>
    norm_num [bspline_fun, bspline_domain, bspline_domainQ, resolveIdx,
      numSplines, indicator_f, linear_lf, linear_rf, XRat.leB, XRat.ltB,
      XRat.geB, XRat.gtB, List.getD, Int.toNat]

/-- **C3**: for every evaluation point, knot list, degree, index and
extrapolation flags, and every differentiation order strictly greater than
the degree, `bspline_dfun` returns `0`. -/
theorem C3_derivative_vanishing (x : ℚ) (knots : List ℚ) (degree order : ℕ)
    (idx : ℤ) (lE rE : Bool) (h : degree < order) :
    bspline_dfun x knots degree order idx lE rE = 0 := by
  cases order with
  | zero => omega
  | succ o =>
    cases degree with
    | zero => simp [bspline_dfun]
    | succ d =>
      have hgt : o + 1 > d + 1 := h
      simp only [bspline_dfun, if_pos hgt]

/-- Witness for C3 at a concrete input. -/
theorem C3_witness :
    1 < 3 ∧ bspline_dfun (1/2) [0, 1, 2] 1 3 0 false false = 0 :=
  ⟨by norm_num, C3_derivative_vanishing (1/2) [0, 1, 2] 1 3 0 false false (by norm_num)⟩

/-- **C4**: the derivative evaluator at order `0` returns exactly the basis
value, and the integral evaluator at order `0` also returns exactly the
basis value at `x`, the lower bound `a` (universally quantified on the left,
absent on the right) having no effect. -/
theorem C4_order_zero_identity (a x : ℚ) (knots : List ℚ) (degree : ℕ)
    (idx : ℤ) (lE rE : Bool) :
    bspline_dfun x knots degree 0 idx lE rE = bspline_fun x knots degree idx lE rE ∧
    bspline_ifun a x knots degree 0 idx lE rE = bspline_fun x knots degree idx lE rE := by
  constructor
  · cases degree with
    | zero => rw [show bspline_dfun x knots 0 0 idx lE rE =
        bspline_fun x knots 0 (resolveIdx knots 0 idx) lE rE from rfl,
        bspline_fun_resolve]
    | succ d => rw [show bspline_dfun x knots (d+1) 0 idx lE rE =
        bspline_fun x knots (d+1) (resolveIdx knots (d+1) idx) lE rE from rfl,
        bspline_fun_resolve]
  · cases degree with
    | zero => rw [show bspline_ifun a x knots 0 0 idx lE rE =
        bspline_fun x knots 0 (resolveIdx knots 0 idx) lE rE from rfl,
        bspline_fun_resolve]
    | succ d => rw [show bspline_ifun a x knots (d+1) 0 idx lE rE =
        bspline_fun x knots (d+1) (resolveIdx knots (d+1) idx) lE rE from rfl,
        bspline_fun_resolve]

/-- **C6**: at degree `0` the basis is exactly the indicator function of the
resolved support, right-closed precisely when the resolved index is the last
basis; in particular for knots `[0, 1, 2]`: `basis(0.5, 0) = 1`,
`basis(1.5, 0) = 0` and `basis(1.5, 1) = 1`. -/
theorem C6_degree_zero_indicator :
    (∀ (x : ℚ) (knots : List ℚ) (idx : ℤ) (lE rE : Bool),
      bspline_fun x knots 0 idx lE rE =
        indicator_f x (bspline_domain knots 0 idx lE rE) true
          (decide (resolveIdx knots 0 idx = numSplines knots 0 - 1))) ∧
    bspline_fun (1/2) [0, 1, 2] 0 0 false false = 1 ∧
    bspline_fun (3/2) [0, 1, 2] 0 0 false false = 0 ∧
    bspline_fun (3/2) [0, 1, 2] 0 1 false false = 1 := by
  refine ⟨fun x knots idx lE rE => ?_, ?_, ?_, ?_⟩
  · simp only [bspline_fun, resolveIdx_idem, bspline_domain_resolve]
  all_goals
    norm_num [bspline_fun, bspline_domain, bspline_domainQ, resolveIdx,
      numSplines, indicator_f, XRat.leB, XRat.ltB, XRat.geB, XRat.gtB,
      List.getD, Int.toNat]

/-- **C8**: `XSpline.domain` returns the support resolved against the inner
knots, with an endpoint replaced by the corresponding outer boundary exactly
when that endpoint of the inner support coincides with the inner boundary. -/
theorem C8_facade_domain (s : XSpline) (idx : ℤ) (lE rE : Bool) :
    s.domain idx lE rE =
      ((if (bspline_domain s.inner_knots s.degree idx lE rE).1 =
            XRat.fin s.inner_lb then XRat.fin s.lb
        else (bspline_domain s.inner_knots s.degree idx lE rE).1),
       (if (bspline_domain s.inner_knots s.degree idx lE rE).2 =
            XRat.fin s.inner_ub then XRat.fin s.ub
        else (bspline_domain s.inner_knots s.degree idx lE rE).2)) := rfl

/-- **C5**: for at least two knots and a valid index (an index in
`[0, num_spline_bases - 1]`, or the sentinel `-1`, which aliases the last
index), `bspline_domain` returns
`[knots[max(idx - degree, 0)], knots[min(idx + 1, num_intervals)]]` for the
resolved index (both list accesses being in bounds), except that the left
endpoint is `-∞` when the resolved index is `0` and `l_extra` is set, and
the right endpoint is `+∞` when the resolved index is the last one and
`r_extra` is set. -/
theorem C5_domain_resolution (knots : List ℚ) (degree : ℕ) (idx : ℤ)
    (lE rE : Bool) (hlen : 2 ≤ knots.length)
    (hidx : idx = -1 ∨ (0 ≤ idx ∧ idx ≤ numSplines knots degree - 1)) :
    ∃ (hlo : (max (resolveIdx knots degree idx - degree) 0).toNat < knots.length)
      (hhi : (min (resolveIdx knots degree idx + 1) ((knots.length : ℤ) - 1)).toNat
        < knots.length),
      bspline_domain knots degree idx lE rE =
        ((if resolveIdx knots degree idx = 0 ∧ lE then XRat.ninf
          else XRat.fin (knots.get
            ⟨(max (resolveIdx knots degree idx - degree) 0).toNat, hlo⟩)),
         (if resolveIdx knots degree idx = numSplines knots degree - 1 ∧ rE
          then XRat.pinf
          else XRat.fin (knots.get
            ⟨(min (resolveIdx knots degree idx + 1) ((knots.length : ℤ) - 1)).toNat,
              hhi⟩))) := by
  have hns : numSplines knots degree = ((knots.length : ℤ) - 1) + degree := rfl
  have hr : 0 ≤ resolveIdx knots degree idx ∧
      resolveIdx knots degree idx ≤ numSplines knots degree - 1 := by
    unfold resolveIdx
    split_ifs with h1
    · omega
    · rcases hidx with h | h
      · exact absurd h h1
      · exact h
  obtain ⟨h0, h1⟩ := hr
  have hlo : (max (resolveIdx knots degree idx - degree) 0).toNat < knots.length := by
    omega
  have hhi : (min (resolveIdx knots degree idx + 1) ((knots.length : ℤ) - 1)).toNat
      < knots.length := by
    omega
  refine ⟨hlo, hhi, ?_⟩
  simp only [bspline_domain, bspline_domainQ, resolveIdx_idem,
    getD_eq_get _ _ hlo, getD_eq_get _ _ hhi]

/-- Witness for C5 at a concrete input (sentinel index `-1`). -/
theorem C5_witness :
    ∃ hlo hhi,
      bspline_domain [0, 1, 2] 1 (-1) false true =
        ((if resolveIdx [0, 1, 2] 1 (-1) = 0 ∧ false then XRat.ninf
          else XRat.fin (([0, 1, 2] : List ℚ).get
            ⟨(max (resolveIdx [0, 1, 2] 1 (-1) - (1 : ℕ)) 0).toNat, hlo⟩)),
         (if resolveIdx [0, 1, 2] 1 (-1) = numSplines [0, 1, 2] 1 - 1 ∧ true
          then XRat.pinf
          else XRat.fin (([0, 1, 2] : List ℚ).get
            ⟨(min (resolveIdx [0, 1, 2] 1 (-1) + 1) ((([0, 1, 2] : List ℚ).length : ℤ) - 1)).toNat,
              hhi⟩))) :=
  C5_domain_resolution [0, 1, 2] 1 (-1) false true (by norm_num) (Or.inl rfl)

/-- **C9**: construction fails (no object is produced) precisely when the
deduplicated knots give `num_intervals < 1 + int(l_linear) + int(r_linear)`
(which covers fewer than two distinct knots) or the degree is negative; on
success the stored knot list is sorted strictly increasing, duplicate-free,
and holds exactly the values of the input list. -/
theorem C9_construction (ks : List ℚ) (deg : ℤ) (lL rL : Bool) :
    (XSpline.mk? ks deg lL rL = none ↔
      ((ks.toFinset.sort (· ≤ ·)).length : ℤ) - 1 < 1 + bi lL + bi rL ∨ deg < 0) ∧
    (∀ s : XSpline, XSpline.mk? ks deg lL rL = some s →
      List.Sorted (· < ·) s.knots ∧ s.knots.Nodup ∧
      (∀ q : ℚ, q ∈ s.knots ↔ q ∈ ks)) := by
  constructor
  · simp only [XSpline.mk?]
    split_ifs with h
    · simp only [reduceCtorEq, false_iff]
      omega
    · simp only [true_iff]
      omega
  · intro s hs
    simp only [XSpline.mk?] at hs
    split_ifs at hs with h
    · obtain rfl : (⟨ks.toFinset.sort (· ≤ ·), deg.toNat, lL, rL⟩ : XSpline) = s :=
        Option.some.inj hs
      refine ⟨?_, ?_, fun q => ?_⟩
      · exact Finset.sort_sorted_lt ks.toFinset
      · exact (Finset.sort_sorted_lt ks.toFinset).nodup
      · show q ∈ ks.toFinset.sort (· ≤ ·) ↔ q ∈ ks
        rw [Finset.mem_sort, List.mem_toFinset]

/-- Witness for C9 at a concrete input: a negative degree makes the
constructor fail. -/
theorem C9_witness : XSpline.mk? [0, 1, 2] (-1) false false = none :=
  (C9_construction [0, 1, 2] (-1) false false).1.mpr (Or.inr (by norm_num))

/-! ### The inner knot sequence of a facade object -/

theorem inner_knots_length (s : XSpline)
    (hlen : 2 + bi s.l_linear + bi s.r_linear ≤ s.knots.length) :
    s.inner_knots.length = s.knots.length - bi s.r_linear - bi s.l_linear := by
  simp only [XSpline.inner_knots, XSpline.num_knots, List.length_take,
    List.length_drop]
  omega

theorem inner_knots_getD (s : XSpline) (j : ℕ)
    (hj : j < s.knots.length - bi s.r_linear - bi s.l_linear) :
    s.inner_knots.getD j 0 = s.knots.getD (bi s.l_linear + j) 0 := by
  simp only [XSpline.inner_knots, XSpline.num_knots]
  rw [List.getD_eq_getElem?_getD, List.getElem?_take_of_lt hj,
    List.getElem?_drop, ← List.getD_eq_getElem?_getD]

theorem xspline_bounds (s : XSpline) (hsort : List.Sorted (· < ·) s.knots)
    (hlen : 2 + bi s.l_linear + bi s.r_linear ≤ s.knots.length) :
    s.lb ≤ s.inner_lb ∧ s.inner_lb ≤ s.inner_ub ∧ s.inner_ub ≤ s.ub := by
  have hL := inner_knots_length s hlen
  have h1 : s.inner_lb = s.knots.getD (bi s.l_linear) 0 := by
    rw [XSpline.inner_lb, inner_knots_getD s 0 (by omega), Nat.add_zero]
  have h2 : s.inner_ub =
      s.knots.getD (bi s.l_linear + (s.knots.length - bi s.r_linear - bi s.l_linear - 1)) 0 := by
    rw [XSpline.inner_ub, hL, inner_knots_getD s _ (by omega)]
  refine ⟨?_, ?_, ?_⟩
  · rw [XSpline.lb, h1]
    exact getD_le_getD _ hsort (by omega) (by omega)
  · rw [h1, h2]
    exact getD_le_getD _ hsort (by omega) (by omega)
  · rw [XSpline.ub, h2]
    exact getD_le_getD _ hsort (by omega) (by omega)

/-- **C10**: for a spline satisfying the construction invariants (strictly
sorted knots and enough intervals for the requested linear tails) with a
linear tail active on a side and that side's extrapolation flag false,
`XSpline.fun` returns `0` at every point strictly beyond the outer boundary
on that side: such a point lies in none of the three evaluation regions, and
the result array starts out as zeros. -/
theorem C10_tail_region_zero (s : XSpline) (x : ℚ) (idx : ℤ) (lE rE : Bool)
    (hsort : List.Sorted (· < ·) s.knots)
    (hlen : 2 + bi s.l_linear + bi s.r_linear ≤ s.knots.length)
    (h : (s.l_linear = true ∧ lE = false ∧ x < s.lb) ∨
         (s.r_linear = true ∧ rE = false ∧ s.ub < x)) :
    s.funAt x idx lE rE = 0 := by
  obtain ⟨hb1, hb2, hb3⟩ := xspline_bounds s hsort hlen
  simp only [XSpline.funAt]
  rcases h with ⟨hl, hle, hx⟩ | ⟨hr, hre, hx⟩
  · have hxin : x < s.inner_lb := lt_of_lt_of_le hx hb1
    split_ifs with h1 h2 h3 h4
    · exact absurd hl h1.1
    · exact absurd (h2.1 hl) (not_le.mpr hxin)
    · exact absurd h3.2.1 (not_lt.mpr (le_of_lt (lt_of_lt_of_le hxin hb2)))
    · rcases h4.2.2 with h' | h'
      · exact absurd h' (not_le.mpr hx)
      · rw [hle] at h'
        exact absurd h' (by simp)
    · rfl
  · have hxin : s.inner_ub < x := lt_of_le_of_lt hb3 hx
    split_ifs with h1 h2 h3 h4
    · exact absurd hr h1.2
    · exact absurd (h2.2 hr) (not_le.mpr hxin)
    · rcases h3.2.2 with h' | h'
      · exact absurd h' (not_le.mpr hx)
      · rw [hre] at h'
        exact absurd h' (by simp)
    · exact absurd h4.2.1
        (not_lt.mpr (le_of_lt (lt_of_le_of_lt (le_trans hb2 hb3) hx)))
    · rfl

/-- Witness for C10 at a concrete input: a left linear tail, a point left of
the outer boundary, left extrapolation off. -/
theorem C10_witness :
    List.Sorted (· < ·) ([0, 1, 2, 3] : List ℚ) ∧
      XSpline.funAt ⟨[0, 1, 2, 3], 1, true, false⟩ (-1) 0 false false = 0 := by
  have hsort : List.Sorted (· < ·) ([0, 1, 2, 3] : List ℚ) := by
    norm_num [List.sorted_cons]
  refine ⟨hsort, C10_tail_region_zero _ _ _ _ _ hsort (by norm_num [bi]) ?_⟩
  refine Or.inl ⟨rfl, rfl, ?_⟩
  norm_num [XSpline.lb, List.getD]

/-! ### Shape lemmas for `bspline_fun` without extrapolation -/

theorem resolveIdx_nonneg (knots : List ℚ) (d : ℕ) {i : ℤ} (h : 0 ≤ i) :
    resolveIdx knots d i = i := by
  unfold resolveIdx
  rw [if_neg (by omega)]

theorem bspline_domain_false (knots : List ℚ) (d : ℕ) (i : ℤ) :
    bspline_domain knots d i false false =
      (XRat.fin (bspline_domainQ knots d i).1,
       XRat.fin (bspline_domainQ knots d i).2) := by
  simp only [bspline_domain, bspline_domainQ_resolve]
  simp

theorem indicator_f_fin (x lb ub : ℚ) (lc rc : Bool) :
    indicator_f x (XRat.fin lb, XRat.fin ub) lc rc =
      if (if lc then lb ≤ x else lb < x) ∧ (if rc then x ≤ ub else x < ub)
      then 1 else 0 := by
  unfold indicator_f XRat.leB XRat.ltB XRat.geB XRat.gtB
  cases lc <;> cases rc <;> simp

theorem fun_zero_eq (x : ℚ) (knots : List ℚ) {idx : ℤ} (h : 0 ≤ idx) :
    bspline_fun x knots 0 idx false false =
      if (bspline_domainQ knots 0 idx).1 ≤ x ∧
          (if idx = numSplines knots 0 - 1
           then x ≤ (bspline_domainQ knots 0 idx).2
           else x < (bspline_domainQ knots 0 idx).2)
      then 1 else 0 := by
  simp only [bspline_fun, resolveIdx_nonneg knots 0 h, bspline_domain_false,
    indicator_f_fin]
  by_cases hl : idx = numSplines knots 0 - 1 <;> simp [hl]

theorem fun_first_eq (x : ℚ) (knots : List ℚ) (d : ℕ) :
    bspline_fun x knots (d + 1) 0 false false =
      (if (bspline_domainQ knots (d + 1) 0).1 ≤ x ∧
          x < (bspline_domainQ knots (d + 1) 0).2 then 1 else 0)
        * linear_rf x (bspline_domainQ knots (d + 1) 0) ^ (d + 1) := by
  have h0 : resolveIdx knots (d + 1) (0 : ℤ) = 0 :=
    resolveIdx_nonneg knots (d + 1) le_rfl
  simp only [bspline_fun, h0, if_pos rfl, bspline_domain_false, indicator_f_fin]
  simp

theorem fun_last_eq (x : ℚ) (knots : List ℚ) (d : ℕ)
    (h1 : 1 ≤ numSplines knots (d + 1) - 1) :
    bspline_fun x knots (d + 1) (numSplines knots (d + 1) - 1) false false =
      (if (bspline_domainQ knots (d + 1) (numSplines knots (d + 1) - 1)).1 ≤ x ∧
          x ≤ (bspline_domainQ knots (d + 1) (numSplines knots (d + 1) - 1)).2
       then 1 else 0)
        * linear_lf x (bspline_domainQ knots (d + 1)
            (numSplines knots (d + 1) - 1)) ^ (d + 1) := by
  have h0 : resolveIdx knots (d + 1) (numSplines knots (d + 1) - 1) =
      numSplines knots (d + 1) - 1 :=
    resolveIdx_nonneg knots (d + 1) (by omega)
  simp only [bspline_fun, h0]
  rw [if_neg (by omega)]
  simp only [if_true, bspline_domain_false, indicator_f_fin]

theorem fun_interior_eq (x : ℚ) (knots : List ℚ) (d : ℕ) {idx : ℤ}
    (h0 : 1 ≤ idx) (h1 : idx < numSplines knots (d + 1) - 1) :
    bspline_fun x knots (d + 1) idx false false =
      bspline_fun x knots d (idx - 1) false false
          * linear_lf x (bspline_domainQ knots d (idx - 1))
        + bspline_fun x knots d idx false false
          * linear_rf x (bspline_domainQ knots d idx) := by
  have h0' : resolveIdx knots (d + 1) idx = idx :=
    resolveIdx_nonneg knots (d + 1) (by omega)
  simp only [bspline_fun, h0']
  rw [if_neg (by omega), if_neg (by omega)]

theorem domQ_lo_eq (knots : List ℚ) (d : ℕ) {idx : ℤ} (h : 0 ≤ idx) :
    (bspline_domainQ knots d idx).1 =
      knots.getD (max (idx - d) 0).toNat 0 := by
  simp only [bspline_domainQ, resolveIdx_nonneg knots d h]

theorem domQ_hi_eq (knots : List ℚ) (d : ℕ) {idx : ℤ} (h : 0 ≤ idx) :
    (bspline_domainQ knots d idx).2 =
      knots.getD (min (idx + 1) ((knots.length : ℤ) - 1)).toNat 0 := by
  simp only [bspline_domainQ, resolveIdx_nonneg knots d h]

theorem numSplines_eq (knots : List ℚ) (d : ℕ) :
    numSplines knots d = ((knots.length : ℤ) - 1) + d := rfl

/-- Support containment: without extrapolation the basis vanishes strictly
outside its support interval. -/
theorem fun_support_outside (x : ℚ) (knots : List ℚ)
    (hs : List.Sorted (· < ·) knots) (hlen : 2 ≤ knots.length) :
    ∀ (d : ℕ) (idx : ℤ), 0 ≤ idx → idx ≤ numSplines knots d - 1 →
      (x < (bspline_domainQ knots d idx).1 ∨
        (bspline_domainQ knots d idx).2 < x) →
      bspline_fun x knots d idx false false = 0 := by
  intro d
  induction d with
  | zero =>
    intro idx h0 h1 hout
    rw [fun_zero_eq x knots h0, if_neg]
    rintro ⟨hc1, hc2⟩
    by_cases he : idx = numSplines knots 0 - 1
    · rw [if_pos he] at hc2
      rcases hout with h | h <;> linarith
    · rw [if_neg he] at hc2
      rcases hout with h | h <;> linarith
  | succ d IH =>
    intro idx h0 h1 hout
    have hns : numSplines knots (d + 1) = ((knots.length : ℤ) - 1) + (d + 1) :=
      numSplines_eq knots (d + 1)
    have hnsd : numSplines knots d = ((knots.length : ℤ) - 1) + d :=
      numSplines_eq knots d
    by_cases hz : idx = 0
    · subst hz
      rw [fun_first_eq, if_neg, zero_mul]
      rintro ⟨hc1, hc2⟩
      rcases hout with h | h <;> linarith
    · by_cases hl : idx = numSplines knots (d + 1) - 1
      · have h1' : 1 ≤ numSplines knots (d + 1) - 1 := by omega
        subst hl
        rw [fun_last_eq x knots d h1', if_neg, zero_mul]
        rintro ⟨hc1, hc2⟩
        rcases hout with h | h <;> linarith
      · have hi0 : 1 ≤ idx := by omega
        have hi1 : idx < numSplines knots (d + 1) - 1 := by omega
        rw [fun_interior_eq x knots d hi0 hi1]
        have e1 : (bspline_domainQ knots d (idx - 1)).1 =
            (bspline_domainQ knots (d + 1) idx).1 := by
          rw [domQ_lo_eq knots d (by omega), domQ_lo_eq knots (d + 1) h0]
          congr 1
          omega
        have e2 : (bspline_domainQ knots d (idx - 1)).2 ≤
            (bspline_domainQ knots (d + 1) idx).2 := by
          rw [domQ_hi_eq knots d (by omega), domQ_hi_eq knots (d + 1) h0]
          exact getD_le_getD knots hs (by omega) (by omega)
        have e3 : (bspline_domainQ knots (d + 1) idx).1 ≤
            (bspline_domainQ knots d idx).1 := by
          rw [domQ_lo_eq knots d h0, domQ_lo_eq knots (d + 1) h0]
          exact getD_le_getD knots hs (by omega) (by omega)
        have e4 : (bspline_domainQ knots d idx).2 =
            (bspline_domainQ knots (d + 1) idx).2 := by
          rw [domQ_hi_eq knots d h0, domQ_hi_eq knots (d + 1) h0]
        have z1 : bspline_fun x knots d (idx - 1) false false = 0 := by
          apply IH (idx - 1) (by omega) (by omega)
          rcases hout with h | h
          · exact Or.inl (by rw [e1]; exact h)
          · exact Or.inr (lt_of_le_of_lt e2 h)
        have z2 : bspline_fun x knots d idx false false = 0 := by
          apply IH idx h0 (by omega)
          rcases hout with h | h
          · exact Or.inl (lt_of_lt_of_le h e3)
          · exact Or.inr (by rw [e4]; exact h)
        rw [z1, z2, zero_mul, zero_mul, add_zero]

/-- Non-negativity of the basis without extrapolation. -/
theorem fun_nonneg (x : ℚ) (knots : List ℚ)
    (hs : List.Sorted (· < ·) knots) (hlen : 2 ≤ knots.length) :
    ∀ (d : ℕ) (idx : ℤ), 0 ≤ idx → idx ≤ numSplines knots d - 1 →
      0 ≤ bspline_fun x knots d idx false false := by
  intro d
  induction d with
  | zero =>
    intro idx h0 h1
    rw [fun_zero_eq x knots h0]
    split_ifs <;> norm_num
  | succ d IH =>
    intro idx h0 h1
    have hns : numSplines knots (d + 1) = ((knots.length : ℤ) - 1) + (d + 1) :=
      numSplines_eq knots (d + 1)
    have hnsd : numSplines knots d = ((knots.length : ℤ) - 1) + d :=
      numSplines_eq knots d
    by_cases hz : idx = 0
    · subst hz
      rw [fun_first_eq]
      split_ifs with hc
      · rw [one_mul]
        apply pow_nonneg
        have hlt : (bspline_domainQ knots (d + 1) 0).1 <
            (bspline_domainQ knots (d + 1) 0).2 := by
          rw [domQ_lo_eq knots (d + 1) le_rfl, domQ_hi_eq knots (d + 1) le_rfl]
          exact getD_lt_getD knots hs (by omega) (by omega)
        unfold linear_rf
        apply le_of_lt
        apply div_pos_of_neg_of_neg <;> linarith [hc.2]
      · rw [zero_mul]
    · by_cases hl : idx = numSplines knots (d + 1) - 1
      · have h1' : 1 ≤ numSplines knots (d + 1) - 1 := by omega
        subst hl
        rw [fun_last_eq x knots d h1']
        split_ifs with hc
        · rw [one_mul]
          apply pow_nonneg
          have hlt : (bspline_domainQ knots (d + 1) (numSplines knots (d + 1) - 1)).1 <
              (bspline_domainQ knots (d + 1) (numSplines knots (d + 1) - 1)).2 := by
            rw [domQ_lo_eq knots (d + 1) (by omega),
              domQ_hi_eq knots (d + 1) (by omega)]
            exact getD_lt_getD knots hs (by omega) (by omega)
          unfold linear_lf
          apply div_nonneg <;> linarith [hc.1]
        · rw [zero_mul]
      · have hi0 : 1 ≤ idx := by omega
        have hi1 : idx < numSplines knots (d + 1) - 1 := by omega
        rw [fun_interior_eq x knots d hi0 hi1]
        apply add_nonneg
        · rcases lt_or_le x (bspline_domainQ knots d (idx - 1)).1 with hxl | hxl
          · rw [fun_support_outside x knots hs hlen d (idx - 1) (by omega)
              (by omega) (Or.inl hxl), zero_mul]
          · rcases lt_or_le (bspline_domainQ knots d (idx - 1)).2 x with hxr | hxr
            · rw [fun_support_outside x knots hs hlen d (idx - 1) (by omega)
                (by omega) (Or.inr hxr), zero_mul]
            · apply mul_nonneg (IH (idx - 1) (by omega) (by omega))
              have hlt : (bspline_domainQ knots d (idx - 1)).1 <
                  (bspline_domainQ knots d (idx - 1)).2 := by
                rw [domQ_lo_eq knots d (by omega), domQ_hi_eq knots d (by omega)]
                exact getD_lt_getD knots hs (by omega) (by omega)
              unfold linear_lf
              apply div_nonneg <;> linarith
        · rcases lt_or_le x (bspline_domainQ knots d idx).1 with hxl | hxl
          · rw [fun_support_outside x knots hs hlen d idx (by omega)
              (by omega) (Or.inl hxl), zero_mul]
          · rcases lt_or_le (bspline_domainQ knots d idx).2 x with hxr | hxr
            · rw [fun_support_outside x knots hs hlen d idx (by omega)
                (by omega) (Or.inr hxr), zero_mul]
            · apply mul_nonneg (IH idx (by omega) (by omega))
              have hlt : (bspline_domainQ knots d idx).1 <
                  (bspline_domainQ knots d idx).2 := by
                rw [domQ_lo_eq knots d (by omega), domQ_hi_eq knots d (by omega)]
                exact getD_lt_getD knots hs (by omega) (by omega)
              unfold linear_rf
              apply div_nonneg_of_nonpos <;> linarith

/-- **C7** (corrected, counterexample): with an extrapolation flag set the
basis can be negative: for knots `[0, 1, 2]`, degree 1, index 1 and
`l_extra = true`, the value at `x = -1` is `-1 < 0`. -/
theorem C7_counterexample :
    bspline_fun (-1) [0, 1, 2] 1 1 true false = -1 ∧
    ¬ (0 ≤ bspline_fun (-1) [0, 1, 2] 1 1 true false) := by
  have h : bspline_fun (-1) [0, 1, 2] 1 1 true false = -1 := by
    norm_num [bspline_fun, bspline_domain, bspline_domainQ, resolveIdx,
      numSplines, indicator_f, linear_lf, linear_rf, XRat.leB, XRat.ltB,
      XRat.geB, XRat.gtB, List.getD, Int.toNat]
  exact ⟨h, by rw [h]; norm_num⟩

/-- **C7** (amended): for every strictly increasing knot sequence (with at
least two knots), every degree, every valid index and every evaluation
point, with both extrapolation flags false, the basis value is
non-negative. -/
theorem C7_nonneg_amended (x : ℚ) (knots : List ℚ) (degree : ℕ) (idx : ℤ)
    (hs : List.Sorted (· < ·) knots) (hlen : 2 ≤ knots.length)
    (h0 : 0 ≤ idx) (h1 : idx ≤ numSplines knots degree - 1) :
    0 ≤ bspline_fun x knots degree idx false false :=
  fun_nonneg x knots hs hlen degree idx h0 h1

/-- Witness for C7 (amended) at a concrete input. -/
theorem C7_witness :
    List.Sorted (· < ·) ([0, 1, 2] : List ℚ) ∧
      0 ≤ bspline_fun (1/3) [0, 1, 2] 2 1 false false := by
  have hsort : List.Sorted (· < ·) ([0, 1, 2] : List ℚ) := by
    norm_num [List.sorted_cons]
  exact ⟨hsort, C7_nonneg_amended (1/3) [0, 1, 2] 2 1 hsort (by norm_num)
    (by norm_num) (by norm_num [numSplines])⟩

theorem linear_rf_hi (b : ℚ × ℚ) : linear_rf b.2 b = 0 := by
  unfold linear_rf
  rw [sub_self, zero_div]

/-- The leftmost basis of degree `d + 1` is the leftmost basis of degree `d`
times the decreasing ramp over the first knot interval. -/
theorem fun_first_step (x : ℚ) (knots : List ℚ) (_hlen : 2 ≤ knots.length)
    (d : ℕ) :
    bspline_fun x knots (d + 1) 0 false false =
      bspline_fun x knots d 0 false false
        * linear_rf x (bspline_domainQ knots d 0) := by
  have hdom : bspline_domainQ knots d 0 = bspline_domainQ knots (d + 1) 0 := by
    rw [Prod.ext_iff]
    constructor
    · rw [domQ_lo_eq knots d le_rfl, domQ_lo_eq knots (d + 1) le_rfl]
      congr 1
      omega
    · rw [domQ_hi_eq knots d le_rfl, domQ_hi_eq knots (d + 1) le_rfl]
  cases d with
  | zero =>
    rw [fun_first_eq x knots 0, fun_zero_eq x knots le_rfl, hdom, pow_one]
    by_cases hc : (0 : ℤ) = numSplines knots 0 - 1
    · simp only [if_pos hc]
      rcases eq_or_ne x (bspline_domainQ knots (0 + 1) 0).2 with hx | hx
      · have hz : linear_rf x (bspline_domainQ knots (0 + 1) 0) = 0 := by
          rw [hx]
          exact linear_rf_hi _
        rw [hz, mul_zero, mul_zero]
      · have hiff : ((bspline_domainQ knots (0 + 1) 0).1 ≤ x ∧
            x < (bspline_domainQ knots (0 + 1) 0).2) ↔
            ((bspline_domainQ knots (0 + 1) 0).1 ≤ x ∧
              x ≤ (bspline_domainQ knots (0 + 1) 0).2) :=
          and_congr_right fun _ =>
            ⟨le_of_lt, fun h => lt_of_le_of_ne h hx⟩
        rw [if_congr hiff rfl rfl]
    · simp only [if_neg hc]
  | succ e =>
    rw [fun_first_eq x knots (e + 1), fun_first_eq x knots e, hdom, pow_succ,
      mul_assoc]

/-- The rightmost basis of degree `d + 1` is the rightmost basis of degree
`d` times the increasing ramp over the last knot interval. -/
theorem fun_last_step (x : ℚ) (knots : List ℚ) (hlen : 2 ≤ knots.length)
    (d : ℕ) :
    bspline_fun x knots (d + 1) (numSplines knots (d + 1) - 1) false false =
      bspline_fun x knots d (numSplines knots d - 1) false false
        * linear_lf x (bspline_domainQ knots d (numSplines knots d - 1)) := by
  have h0d : (0 : ℤ) ≤ numSplines knots d - 1 := by
    rw [numSplines_eq]
    omega
  have h0d1 : (0 : ℤ) ≤ numSplines knots (d + 1) - 1 := by
    rw [numSplines_eq]
    omega
  have hdom : bspline_domainQ knots d (numSplines knots d - 1) =
      bspline_domainQ knots (d + 1) (numSplines knots (d + 1) - 1) := by
    rw [Prod.ext_iff]
    constructor
    · rw [domQ_lo_eq knots d h0d, domQ_lo_eq knots (d + 1) h0d1]
      congr 1
      rw [numSplines_eq, numSplines_eq]
      omega
    · rw [domQ_hi_eq knots d h0d, domQ_hi_eq knots (d + 1) h0d1]
      congr 1
      rw [numSplines_eq, numSplines_eq]
      omega
  cases d with
  | zero =>
    rw [fun_last_eq x knots 0 (by rw [numSplines_eq]; omega),
      fun_zero_eq x knots h0d, hdom, pow_one]
    simp only [eq_self_iff_true, if_true]
  | succ e =>
    rw [fun_last_eq x knots (e + 1) (by rw [numSplines_eq]; omega),
      fun_last_eq x knots e (by rw [numSplines_eq]; omega), hdom, pow_succ,
      mul_assoc]

theorem fun_zero_getD (x : ℚ) (knots : List ℚ) (hlen : 2 ≤ knots.length)
    (i : ℕ) (hi : i < knots.length - 1) :
    bspline_fun x knots 0 (i : ℤ) false false =
      if knots.getD i 0 ≤ x ∧
          (if i = knots.length - 2 then x ≤ knots.getD (i + 1) 0
           else x < knots.getD (i + 1) 0)
      then 1 else 0 := by
  rw [fun_zero_eq x knots (Int.natCast_nonneg i),
    domQ_lo_eq knots 0 (Int.natCast_nonneg i),
    domQ_hi_eq knots 0 (Int.natCast_nonneg i)]
  have e1 : (max ((i : ℤ) - ((0 : ℕ) : ℤ)) 0).toNat = i := by omega
  have e2 : (min ((i : ℤ) + 1) ((knots.length : ℤ) - 1)).toNat = i + 1 := by
    omega
  rw [e1, e2]
  have e3 : ((i : ℤ) = numSplines knots 0 - 1) ↔ (i = knots.length - 2) := by
    rw [numSplines_eq]
    omega
  by_cases hc : i = knots.length - 2
  · simp only [if_pos (e3.mpr hc), if_pos hc]
  · simp only [if_neg (fun h => hc (e3.mp h)), if_neg hc]

/-- Partition of unity at degree `0`: the degree-0 bases sum to `1` on the
knot span. -/
theorem sum_fun_zero (x : ℚ) (knots : List ℚ)
    (hs : List.Sorted (· < ·) knots) (hlen : 2 ≤ knots.length)
    (hx1 : knots.getD 0 0 ≤ x) (hx2 : x ≤ knots.getD (knots.length - 1) 0) :
    ∑ i ∈ Finset.range (knots.length - 1),
      bspline_fun x knots 0 (i : ℤ) false false = 1 := by
  have hsplit : knots.length - 1 = (knots.length - 2) + 1 := by omega
  rw [hsplit, Finset.sum_range_succ]
  have hmid : ∀ i ∈ Finset.range (knots.length - 2),
      bspline_fun x knots 0 (i : ℤ) false false =
        (if knots.getD i 0 ≤ x then (1 : ℚ) else 0)
          - (if knots.getD (i + 1) 0 ≤ x then (1 : ℚ) else 0) := by
    intro i hi
    rw [Finset.mem_range] at hi
    rw [fun_zero_getD x knots hlen i (by omega)]
    simp only [if_neg (by omega : ¬ i = knots.length - 2)]
    have hKi : knots.getD i 0 ≤ knots.getD (i + 1) 0 :=
      getD_le_getD knots hs (by omega) (by omega)
    by_cases h1 : knots.getD i 0 ≤ x
    · by_cases h2 : knots.getD (i + 1) 0 ≤ x
      · rw [if_neg (by rintro ⟨_, h⟩; linarith), if_pos h1, if_pos h2]
        norm_num
      · rw [if_pos ⟨h1, by linarith⟩, if_pos h1, if_neg h2]
        norm_num
    · rw [if_neg (by rintro ⟨h, _⟩; exact h1 h), if_neg h1,
        if_neg (by intro h2; exact h1 (le_trans hKi h2))]
      norm_num
  rw [Finset.sum_congr rfl hmid, Finset.sum_range_sub'
    (fun i => if knots.getD i 0 ≤ x then (1 : ℚ) else 0) (knots.length - 2)]
  have hlast : bspline_fun x knots 0 ((knots.length - 2 : ℕ) : ℤ) false false =
      if knots.getD (knots.length - 2) 0 ≤ x then (1 : ℚ) else 0 := by
    rw [fun_zero_getD x knots hlen (knots.length - 2) (by omega)]
    simp only [eq_self_iff_true, if_true]
    have e4 : knots.length - 2 + 1 = knots.length - 1 := by omega
    rw [e4]
    by_cases h1 : knots.getD (knots.length - 2) 0 ≤ x
    · rw [if_pos ⟨h1, hx2⟩, if_pos h1]
    · rw [if_neg (by rintro ⟨h, _⟩; exact h1 h), if_neg h1]
  rw [hlast, if_pos hx1]
  ring

theorem ramp_sum (x : ℚ) (b : ℚ × ℚ) (h : b.1 ≠ b.2) :
    linear_lf x b + linear_rf x b = 1 := by
  unfold linear_lf linear_rf
  have h1 : b.2 - b.1 ≠ 0 := sub_ne_zero.mpr (Ne.symm h)
  have h2 : b.1 - b.2 ≠ 0 := sub_ne_zero.mpr h
  field_simp
  ring

/-- One degree-raising step of the partition of unity: the degree-`(d+1)`
bases sum to the same value as the degree-`d` bases, at every point. -/
theorem sum_step (x : ℚ) (knots : List ℚ) (hs : List.Sorted (· < ·) knots)
    (hlen : 2 ≤ knots.length) (d : ℕ) :
    ∑ i ∈ Finset.range (knots.length - 1 + (d + 1)),
        bspline_fun x knots (d + 1) (i : ℤ) false false
      = ∑ i ∈ Finset.range (knots.length - 1 + d),
          bspline_fun x knots d (i : ℤ) false false := by
  obtain ⟨p, hp⟩ : ∃ p, knots.length - 1 + d = p + 1 :=
    ⟨knots.length - 2 + d, by omega⟩
  have hstrict : ∀ i : ℕ, i < p + 1 →
      (bspline_domainQ knots d (i : ℤ)).1 < (bspline_domainQ knots d (i : ℤ)).2 := by
    intro i hi
    rw [domQ_lo_eq knots d (Int.natCast_nonneg i),
      domQ_hi_eq knots d (Int.natCast_nonneg i)]
    exact getD_lt_getD knots hs (by omega) (by omega)
  have k2 : ∀ i ∈ Finset.range (p + 1),
      bspline_fun x knots d (i : ℤ) false false
          * linear_lf x (bspline_domainQ knots d (i : ℤ))
        + bspline_fun x knots d (i : ℤ) false false
          * linear_rf x (bspline_domainQ knots d (i : ℤ))
      = bspline_fun x knots d (i : ℤ) false false := by
    intro i hi
    rw [Finset.mem_range] at hi
    rw [← mul_add, ramp_sum x _ (ne_of_lt (hstrict i hi)), mul_one]
  have k1 : ∀ i ∈ Finset.range p,
      bspline_fun x knots (d + 1) ((i + 1 : ℕ) : ℤ) false false
        = bspline_fun x knots d (i : ℤ) false false
            * linear_lf x (bspline_domainQ knots d (i : ℤ))
          + bspline_fun x knots d ((i + 1 : ℕ) : ℤ) false false
            * linear_rf x (bspline_domainQ knots d ((i + 1 : ℕ) : ℤ)) := by
    intro i hi
    rw [Finset.mem_range] at hi
    have ecast : ((i + 1 : ℕ) : ℤ) - 1 = (i : ℤ) := by push_cast; ring
    rw [fun_interior_eq x knots d (by omega)
      (by rw [numSplines_eq]; omega), ecast]
  have k3 : bspline_fun x knots (d + 1) ((0 : ℕ) : ℤ) false false
      = bspline_fun x knots d ((0 : ℕ) : ℤ) false false
          * linear_rf x (bspline_domainQ knots d ((0 : ℕ) : ℤ)) := by
    simp only [Nat.cast_zero]
    exact fun_first_step x knots hlen d
  have k4 : bspline_fun x knots (d + 1) ((p + 1 : ℕ) : ℤ) false false
      = bspline_fun x knots d ((p : ℕ) : ℤ) false false
          * linear_lf x (bspline_domainQ knots d ((p : ℕ) : ℤ)) := by
    have hc1 : ((p + 1 : ℕ) : ℤ) = numSplines knots (d + 1) - 1 := by
      rw [numSplines_eq]
      omega
    have hc2 : ((p : ℕ) : ℤ) = numSplines knots d - 1 := by
      rw [numSplines_eq]
      omega
    rw [hc1, hc2, fun_last_step x knots hlen d]
  rw [show knots.length - 1 + (d + 1) = (p + 1) + 1 from by omega, hp]
  rw [Finset.sum_range_succ
    (fun i => bspline_fun x knots (d + 1) (i : ℤ) false false) (p + 1)]
  rw [Finset.sum_range_succ'
    (fun i => bspline_fun x knots (d + 1) (i : ℤ) false false) p]
  rw [Finset.sum_congr rfl k1, Finset.sum_add_distrib, k3, k4]
  have e5 : ∑ i ∈ Finset.range p,
      bspline_fun x knots d (i : ℤ) false false
        * linear_lf x (bspline_domainQ knots d (i : ℤ))
      = (∑ i ∈ Finset.range (p + 1),
          bspline_fun x knots d (i : ℤ) false false
            * linear_lf x (bspline_domainQ knots d (i : ℤ)))
        - bspline_fun x knots d ((p : ℕ) : ℤ) false false
            * linear_lf x (bspline_domainQ knots d ((p : ℕ) : ℤ)) := by
    rw [Finset.sum_range_succ]
    ring
  have e6 : ∑ i ∈ Finset.range p,
      bspline_fun x knots d ((i + 1 : ℕ) : ℤ) false false
        * linear_rf x (bspline_domainQ knots d ((i + 1 : ℕ) : ℤ))
      = (∑ i ∈ Finset.range (p + 1),
          bspline_fun x knots d (i : ℤ) false false
            * linear_rf x (bspline_domainQ knots d (i : ℤ)))
        - bspline_fun x knots d ((0 : ℕ) : ℤ) false false
            * linear_rf x (bspline_domainQ knots d ((0 : ℕ) : ℤ)) := by
    rw [Finset.sum_range_succ'
      (fun i => bspline_fun x knots d (i : ℤ) false false
        * linear_rf x (bspline_domainQ knots d (i : ℤ))) p]
    ring
  rw [e5, e6]
  have e7 : ∑ i ∈ Finset.range (p + 1),
      (bspline_fun x knots d (i : ℤ) false false
          * linear_lf x (bspline_domainQ knots d (i : ℤ))
        + bspline_fun x knots d (i : ℤ) false false
          * linear_rf x (bspline_domainQ knots d (i : ℤ)))
      = ∑ i ∈ Finset.range (p + 1), bspline_fun x knots d (i : ℤ) false false :=
    Finset.sum_congr rfl k2
  rw [Finset.sum_add_distrib] at e7
  linarith [e7]

/-- **C2**: partition of unity.  For every strictly increasing knot sequence
(at least two knots), every degree, and both extrapolation flags false, the
sum of `bspline_fun x knots degree idx` over all valid indices
`idx ∈ [0, num_spline_bases - 1]` equals `1` for every `x` between the first
and the last knot (inclusive). -/
theorem C2_partition_of_unity (x : ℚ) (knots : List ℚ) (degree : ℕ)
    (hs : List.Sorted (· < ·) knots) (hlen : 2 ≤ knots.length)
    (hx1 : knots.getD 0 0 ≤ x) (hx2 : x ≤ knots.getD (knots.length - 1) 0) :
    ∑ i ∈ Finset.range (knots.length - 1 + degree),
      bspline_fun x knots degree (i : ℤ) false false = 1 := by
  induction degree with
  | zero =>
    rw [Nat.add_zero]
    exact sum_fun_zero x knots hs hlen hx1 hx2
  | succ d IH =>
    rw [sum_step x knots hs hlen d]
    exact IH

/-- Witness for C2 at a concrete input: knots `[0, 1, 2]`, degree 2,
`x = 1/2`. -/
theorem C2_witness :
    ∑ i ∈ Finset.range (([0, 1, 2] : List ℚ).length - 1 + 2),
      bspline_fun (1/2) [0, 1, 2] 2 (i : ℤ) false false = 1 :=
  C2_partition_of_unity (1/2) [0, 1, 2] 2 (by norm_num [List.sorted_cons])
    (by norm_num) (by norm_num [List.getD]) (by norm_num [List.getD])
